import Mathlib

/-!
Shallow embedding of the fil-warsaw-workshop repository.

The embedding covers:
* the file-selection handlers of `FileUpload.tsx` and the `EncryptedNFTMinter`
  component (100 MB size limit);
* the `NFTContract.sol` smart contract (`mint`, `tokenURI`, `getTotalSupply`,
  `getAllTokensDetails`);
* the mint call sites (`NFTMinter.handleUploadAndMint`,
  `EncryptedNFTMinter.handleEncryptUploadAndMint`);
* the `useDatasets` query pipeline (provider/dataset enrichment);
* the `useChallengeVerification` hook (flag validation, progress persistence);
* the `useFileUploadEnhanced` upload workflow and its cancellation;
* the `formatCurrency` utility of the workshop context provider.

Decimal strings of digits are represented as big-endian lists of digit values,
and JavaScript strings elsewhere as Lean `String`/`List Char`.
-/

namespace FilWorkshop

/-- Metadata of a browser `File` object: only the fields the workshop code
reads (`name`, `size` in bytes). -/
structure FileMeta where
  name : String
  size : Nat
  deriving DecidableEq, Repr

/-- The 100 MB limit `100 * 1024 * 1024` used by both file-select handlers. -/
def MAX_UPLOAD_SIZE : Nat := 100 * 1024 * 1024

namespace FileUpload

/-- `handleFileSelect` of `FileUpload.tsx`: takes the `FileList` (modelled as a
list of file metadata) and the current `selectedFile` state; returns the new
`selectedFile` state together with whether the rejection `alert` was shown.
A file strictly larger than 100 MB triggers the alert and an early return;
otherwise the file becomes the selected file. -/
def handleFileSelect (files : List FileMeta) (selectedFile : Option FileMeta) :
    Option FileMeta × Bool :=
  match files with
  | f :: _ =>
    if f.size > MAX_UPLOAD_SIZE then (selectedFile, true)
    else (some f, false)
  | [] => (selectedFile, false)

end FileUpload

namespace EncryptedNFTMinter

/-- The component state of `EncryptedNFTMinter` touched by its
`handleFileSelect`: the selected file plus the piece CID and minted-token-id
states that a fresh selection resets. -/
structure SelectState where
  selectedFile : Option FileMeta
  pieceCid : Option String
  mintedTokenId : Option String
  deriving DecidableEq, Repr

/-- `handleFileSelect` of the `EncryptedNFTMinter` component: same 100 MB
check as `FileUpload`, additionally resetting `pieceCid` and `mintedTokenId`
when a file is accepted.  Returns the new state and whether the alert fired. -/
def handleFileSelect (files : List FileMeta) (st : SelectState) :
    SelectState × Bool :=
  match files with
  | f :: _ =>
    if f.size > MAX_UPLOAD_SIZE then (st, true)
    else ({ selectedFile := some f, pieceCid := none, mintedTokenId := none }, false)
  | [] => (st, false)

end EncryptedNFTMinter

namespace NFTContract

/-- Storage of `NFTContract.sol`: the `_tokenIdCounter`, the
`_tokenURIs` mapping (Solidity `mapping(uint256 => string)`, defaulting to the
empty string), and the ERC721 owner mapping (`none` = token does not exist). -/
structure State where
  tokenIdCounter : Nat
  tokenURIs : Nat → String
  owners : Nat → Option String

/-- Contract storage right after the constructor runs. -/
def initialState : State :=
  { tokenIdCounter := 0, tokenURIs := fun _ => "", owners := fun _ => none }

/-- `mint(string memory storacha_cid)`: increments the counter, lets
`tokenId` be the new counter value, `_mint`s the token to the caller and
records the CID in `_tokenURIs`.  The ERC721 `_mint` revert on an existing
token cannot fire because the incremented counter is always a fresh id. -/
def mint (sender : String) (storacha_cid : String) (st : State) : State :=
  let tokenId := st.tokenIdCounter + 1
  { tokenIdCounter := tokenId
    tokenURIs := fun k => if k = tokenId then storacha_cid else st.tokenURIs k
    owners := fun k => if k = tokenId then some sender else st.owners k }

/-- `tokenURI(uint256 tokenId)`: reads the `_tokenURIs` mapping. -/
def tokenURI (st : State) (tokenId : Nat) : String :=
  st.tokenURIs tokenId

/-- `ownerOf(uint256 tokenId)` (ERC721): the recorded owner, `none` when the
token does not exist (where Solidity would revert). -/
def ownerOf (st : State) (tokenId : Nat) : Option String :=
  st.owners tokenId

/-- `getTotalSupply()`: returns the raw `_tokenIdCounter`. -/
def getTotalSupply (st : State) : Nat :=
  st.tokenIdCounter

/-- `getAllTokensDetails()`: the array `[tokenURI(1), …, tokenURI(totalSupply)]`
built by the `for` loop over `i = 0 .. totalSupply-1` with entry
`tokenURI(i + 1)`. -/
def getAllTokensDetails (st : State) : List String :=
  (List.range (getTotalSupply st)).map (fun i => tokenURI st (i + 1))

/-- A sequence of `mint` calls, each given by the caller address and the CID
argument, executed left to right. -/
def mintMany (calls : List (String × String)) (st : State) : State :=
  calls.foldl (fun s c => mint c.1 c.2 s) st

end NFTContract

/-- An invocation of one of the two NFT contract write methods, with the
argument shapes the application passes (`args: [cid]` for `mint`,
`args: [pieceCid, accessAddresses]` for `mintPrivate`).  `mint` is
`NFTContract.mint(string)`; `mintPrivate(string, address[])` belongs to
the deployed `LitEncryptedNFT` contract, whose Solidity source is not in the
repository: its signature here follows the call site and the spec ("a method
`mintPrivate` accepting a content identifier together with a list of
authorized addresses"). -/
inductive ContractCall where
  | mint (cid : String)
  | mintPrivate (cid : String) (accessAddresses : List String)
  deriving DecidableEq, Repr

namespace NFTMinter

/-- The contract call issued by `handleUploadAndMint` in the `NFTMinter`
component (public NFTs): `mint` with only the uploaded piece CID. -/
def mintCall (uploadResult : String) : ContractCall :=
  ContractCall.mint uploadResult

end NFTMinter

namespace EncryptedNFTMinter

/-- The contract call issued by `handleEncryptUploadAndMint` in the
`EncryptedNFTMinter` component.  The component keeps a `mintType` state of
`"public"` or `"private"`, but the handler invokes
`mintNFT({ functionName: "mintPrivate", args: [pieceCid, accessAddresses] })`
unconditionally — `mintType` is never consulted. -/
def mintCall (mintType : String) (pieceCid : String)
    (accessAddresses : List String) : ContractCall :=
  ContractCall.mintPrivate pieceCid accessAddresses

end EncryptedNFTMinter

/-- Provider record as used by `useDatasets`: the numeric id and
`products.PDP?.data.serviceURL` (`none` when the `PDP` product is absent). -/
structure ProviderInfo where
  id : Nat
  pdpServiceURL : Option String
  deriving DecidableEq, Repr

/-- The SDK's `EnhancedDataSetInfo`, with the fields the hook reads made
explicit and every remaining field collected in `rest`. -/
structure EnhancedDataSetInfo (α : Type) where
  pdpVerifierDataSetId : Nat
  providerId : Nat
  payee : String
  rest : α
  deriving DecidableEq, Repr

/-- The enriched `DataSet` object produced by the hook: the spread of the
base dataset plus the three added fields `provider`, `serviceURL` and `data`
(`data` is absent — `none` — when the PDP detail fetch threw; `serviceURL` is
absent when the provider id has no service-URL mapping). -/
structure DataSet (α δ : Type) where
  base : EnhancedDataSetInfo α
  provider : Option ProviderInfo
  serviceURL : Option String
  data : Option δ
  deriving DecidableEq, Repr

namespace useDatasets

/-- STEP 4 of the hook: `datasets.reduce((acc, d) => { acc[d.providerId] =
d.payee; return acc; }, {})` — later datasets overwrite earlier entries. -/
def providerIdToAddressMap (datasets : List (EnhancedDataSetInfo α)) :
    Nat → Option String :=
  datasets.foldl
    (fun acc d => fun pid => if pid = d.providerId then some d.payee else acc pid)
    (fun _ => none)

/-- STEP 5 of the hook: for each approved provider id, return `null` when the
address map has no entry, otherwise attempt `synapse.getProviderInfo` (the
oracle `getProviderInfo`, `none` meaning the call threw and was caught), then
filter out the `null`s. -/
def filteredProviders (getProviderInfo : Nat → Option ProviderInfo)
    (addrMap : Nat → Option String) (providerIds : List Nat) : List ProviderInfo :=
  (providerIds.map
    (fun pid => if (addrMap pid).isSome then getProviderInfo pid else none)).reduceOption

/-- STEP 6 of the hook: `filteredProviders.reduce((acc, p) => { acc[p.id] =
p.products.PDP?.data.serviceURL || ""; return acc; }, {})`. -/
def providerIdToServiceUrlMap (ps : List ProviderInfo) : Nat → Option String :=
  ps.foldl
    (fun acc p => fun pid => if pid = p.id then some (p.pdpServiceURL.getD "") else acc pid)
    (fun _ => none)

/-- STEP 7 of the hook, for one dataset: look up the service URL and provider,
then try `pdpServer.getDataSet` (oracle `getDataSet`, `none` meaning the call
threw); on failure the `catch` branch returns the same object without the
`data` field. -/
def enrichOne (getDataSet : Nat → Option δ) (ps : List ProviderInfo)
    (urlMap : Nat → Option String) (d : EnhancedDataSetInfo α) : DataSet α δ :=
  { base := d
    provider := ps.find? (fun p => p.id == d.providerId)
    serviceURL := urlMap d.providerId
    data := getDataSet d.pdpVerifierDataSetId }

/-- STEPS 7–9 of the hook: enrich every dataset, then map the original list
through `datasetDataResults.find(r => r.pdpVerifierDataSetId ===
d.pdpVerifierDataSetId)` (which yields `undefined` — `none` — when absent). -/
def datasetsWithDetails (getDataSet : Nat → Option δ) (ps : List ProviderInfo)
    (urlMap : Nat → Option String) (datasets : List (EnhancedDataSetInfo α)) :
    List (Option (DataSet α δ)) :=
  let results := datasets.map (enrichOne getDataSet ps urlMap)
  datasets.map
    (fun d => results.find? (fun r => r.base.pdpVerifierDataSetId == d.pdpVerifierDataSetId))

/-- The whole `useDatasets` query function.  The two top-level awaited fetches
(`getApprovedProviderIds`, `getClientDataSetsWithDetails`) are `Except`
parameters: their failures are not caught and reject the query.  The
per-provider and per-dataset fetches are the `Option` oracles whose failures
the hook catches internally. -/
def queryFn (providerIdsResult : Except String (List Nat))
    (datasetsResult : Except String (List (EnhancedDataSetInfo α)))
    (getProviderInfo : Nat → Option ProviderInfo)
    (getDataSet : Nat → Option δ) : Except String (List (Option (DataSet α δ))) :=
  match providerIdsResult, datasetsResult with
  | Except.error e, _ => Except.error e
  | Except.ok _, Except.error e => Except.error e
  | Except.ok providerIds, Except.ok datasets =>
    let addrMap := providerIdToAddressMap datasets
    let ps := filteredProviders getProviderInfo addrMap providerIds
    let urlMap := providerIdToServiceUrlMap ps
    Except.ok (datasetsWithDetails getDataSet ps urlMap datasets)

end useDatasets

/-- The `ChallengeType` string enum of `workshop.types.ts`. -/
inductive ChallengeType where
  | TREASURY_MASTER
  | STORAGE_SENTINEL
  | DATA_GUARDIAN
  | NFT_ARCHITECT
  | DECRYPTION_EXPERT
  deriving DecidableEq, Repr

/-- The string value of each `ChallengeType` enum member. -/
def ChallengeType.key : ChallengeType → String
  | .TREASURY_MASTER => "TREASURY_MASTER"
  | .STORAGE_SENTINEL => "STORAGE_SENTINEL"
  | .DATA_GUARDIAN => "DATA_GUARDIAN"
  | .NFT_ARCHITECT => "NFT_ARCHITECT"
  | .DECRYPTION_EXPERT => "DECRYPTION_EXPERT"

/-- `Object.values(ChallengeType)` in declaration order. -/
def ChallengeType.values : List ChallengeType :=
  [.TREASURY_MASTER, .STORAGE_SENTINEL, .DATA_GUARDIAN, .NFT_ARCHITECT, .DECRYPTION_EXPERT]

instance : Fintype ChallengeType where
  elems := ⟨{ChallengeType.TREASURY_MASTER, .STORAGE_SENTINEL, .DATA_GUARDIAN,
              .NFT_ARCHITECT, .DECRYPTION_EXPERT}, by decide⟩
  complete := by intro x; cases x <;> decide

/-- `WORKSHOP_CONFIG.PROGRESS_STORAGE_KEY`. -/
def PROGRESS_STORAGE_KEY : String := "fil-workshop-progress"

/-- `WORKSHOP_CONFIG.PROGRESS_VERSION`. -/
def PROGRESS_VERSION : Nat := 1

/-- `WORKSHOP_CONFIG.TOTAL_CHALLENGES`. -/
def TOTAL_CHALLENGES : Nat := 5

/-- The `WorkshopProgress` record persisted under the progress key;
timestamps are epoch milliseconds. -/
structure WorkshopProgress where
  completedChallenges : List ChallengeType
  lastUpdated : Nat
  version : Nat
  sessionStarted : Nat
  timeSpent : Nat
  deriving DecidableEq, Repr

/-- A value stored in `localStorage` by the hook (progress record or a
per-challenge transaction hash). -/
inductive StoredValue where
  | progressVal (p : WorkshopProgress)
  | txVal (tx : String)
  deriving DecidableEq, Repr

/-- The browser `localStorage`, keyed by strings. -/
def Store : Type := String → Option StoredValue

/-- `localStorage.setItem`. -/
def setStore (store : Store) (key : String) (v : StoredValue) : Store :=
  fun k => if k = key then some v else store k

/-- `localStorage.removeItem`. -/
def removeStore (store : Store) (key : String) : Store :=
  fun k => if k = key then none else store k

/-- The key of `getTransactionStorage(challengeId)`:
`challenge-${challengeId}-tx`. -/
def txStorageKey (id : ChallengeType) : String :=
  "challenge-" ++ id.key ++ "-tx"

/-- The slice of the `useChallengeVerification` reducer state the progress
claims concern (`attempts` and `isLoading` omitted). -/
structure HookState where
  progress : WorkshopProgress
  isSaving : Bool
  error : Option String
  deriving Repr

/-- The reducer actions dispatched by `completeChallenge` and
`resetProgress`. -/
inductive HookAction where
  | START_SAVE
  | SAVE_COMPLETE (progress : WorkshopProgress)
  | SET_ERROR (error : String)
  | RESET_PROGRESS (now : Nat)

/-- `challengeVerificationReducer`, restricted to the actions above.
`RESET_PROGRESS` rebuilds a fresh progress record with both timestamps set to
`Date.now()`. -/
def challengeVerificationReducer (state : HookState) (action : HookAction) : HookState :=
  match action with
  | .START_SAVE => { state with isSaving := true, error := none }
  | .SAVE_COMPLETE p => { state with progress := p, isSaving := false, error := none }
  | .SET_ERROR e => { state with isSaving := false, error := some e }
  | .RESET_PROGRESS now =>
    { state with
      progress :=
        { completedChallenges := []
          lastUpdated := now
          version := PROGRESS_VERSION
          sessionStarted := now
          timeSpent := 0 }
      isSaving := false
      error := none }

/-- The `updatedProgress` object built inside `completeChallenge`: appends the
challenge id unless it is already present, stamps `lastUpdated` with
`Date.now()` and accumulates `timeSpent`. -/
def updatedProgressOf (now : Nat) (id : ChallengeType) (p : WorkshopProgress) :
    WorkshopProgress :=
  { p with
    completedChallenges :=
      if id ∈ p.completedChallenges then p.completedChallenges
      else p.completedChallenges ++ [id]
    lastUpdated := now
    timeSpent := p.timeSpent + (now - p.sessionStarted) }

/-- `completeChallenge(challengeId, transactionHash?)`.  `now` is `Date.now()`;
`okProgress` and `okTx` say whether the two `localStorage.setItem` calls
succeed (`false` = the storage util throws, caught by the surrounding
`try/catch` which dispatches `SET_ERROR`).  A throwing `setItem` leaves the
store unchanged.  Returns the new hook state and store. -/
def completeChallenge (now : Nat) (id : ChallengeType) (tx : Option String)
    (okProgress okTx : Bool) (st : HookState) (store : Store) : HookState × Store :=
  let st1 := challengeVerificationReducer st .START_SAVE
  let up := updatedProgressOf now id st.progress
  if okProgress then
    let store1 := setStore store PROGRESS_STORAGE_KEY (.progressVal up)
    match tx with
    | some h =>
      if okTx then
        (challengeVerificationReducer st1 (.SAVE_COMPLETE up),
         setStore store1 (txStorageKey id) (.txVal h))
      else
        (challengeVerificationReducer st1 (.SET_ERROR "Failed to save progress"), store1)
    | none => (challengeVerificationReducer st1 (.SAVE_COMPLETE up), store1)
  else
    (challengeVerificationReducer st1 (.SET_ERROR "Failed to save progress"), store)

/-- `resetProgress()`: removes the progress record, the attempts record and
every per-challenge transaction key, then dispatches `RESET_PROGRESS`
(`removeItem` never throws in the storage util — errors are swallowed). -/
def resetProgress (now : Nat) (st : HookState) (store : Store) : HookState × Store :=
  let st1 := challengeVerificationReducer st .START_SAVE
  let store1 := removeStore store PROGRESS_STORAGE_KEY
  let store2 := removeStore store1 (PROGRESS_STORAGE_KEY ++ "-attempts")
  let store3 := ChallengeType.values.foldl (fun s id => removeStore s (txStorageKey id)) store2
  (challengeVerificationReducer st1 (.RESET_PROGRESS now), store3)

/-- The initial `useReducer` state of the hook (empty progress,
`sessionStarted = Date.now()`). -/
def initialHookState (sessionStart : Nat) : HookState :=
  { progress :=
      { completedChallenges := []
        lastUpdated := 0
        version := PROGRESS_VERSION
        sessionStarted := sessionStart
        timeSpent := 0 }
    isSaving := false
    error := none }

/-- An empty `localStorage`. -/
def emptyStore : Store := fun _ => none

/-- One user-level operation on the hook: a `completeChallenge` call (with its
`Date.now()` value, optional transaction hash and storage outcomes) or a
`resetProgress` call. -/
inductive HookOp where
  | complete (now : Nat) (id : ChallengeType) (tx : Option String) (okProgress okTx : Bool)
  | reset (now : Nat)

/-- Apply one hook operation to a hook state and store. -/
def applyOp (s : HookState × Store) (op : HookOp) : HookState × Store :=
  match op with
  | .complete now id tx okP okT => completeChallenge now id tx okP okT s.1 s.2
  | .reset now => resetProgress now s.1 s.2

/-- Run a sequence of hook operations left to right. -/
def runOps (ops : List HookOp) (s : HookState × Store) : HookState × Store :=
  ops.foldl applyOp s

/-- JavaScript `String.prototype.trim` whitespace (the characters relevant to
flag strings: space, tab, line feed, carriage return, vertical tab, form
feed). -/
def isJsSpace (c : Char) : Bool :=
  c == ' ' || c == '\t' || c == '\n' || c == '\r' || c == '\x0b' || c == '\x0c'

/-- `flag.trim()` on a string modelled as a list of characters. -/
def jsTrim (s : List Char) : List Char :=
  ((s.dropWhile isJsSpace).reverse.dropWhile isJsSpace).reverse

/-- `haystack.includes(needle)` / the regex-free substring test used for the
`DECRYPTION_EXPERT` flag. -/
def hasSubstring (pat : List Char) : List Char → Bool
  | [] => pat.isEmpty
  | c :: rest => pat.isPrefixOf (c :: rest) || hasSubstring pat rest

/-- The `challengeFlags` validator map (its `Map.get` succeeds for all five
challenge types).  `NFT_ARCHITECT` uses `/^\d+$/`: one or more ASCII
digits. -/
def challengeFlags (id : ChallengeType) (flag : List Char) : Bool :=
  match id with
  | .TREASURY_MASTER => "0x".toList.isPrefixOf flag && flag.length == 66
  | .STORAGE_SENTINEL => "Qm".toList.isPrefixOf flag && flag.length == 46
  | .DATA_GUARDIAN => "encrypted_".toList.isPrefixOf flag && decide (flag.length > 20)
  | .NFT_ARCHITECT => !flag.isEmpty && flag.all Char.isDigit
  | .DECRYPTION_EXPERT => hasSubstring "decrypted_content".toList flag

/-- Per-challenge hint shown on an invalid flag. -/
def hintFor : ChallengeType → String
  | .TREASURY_MASTER => "Expected a transaction hash (0x...)"
  | .STORAGE_SENTINEL => "Expected an IPFS CID (Qm...)"
  | .DATA_GUARDIAN => "Expected an encrypted data identifier"
  | .NFT_ARCHITECT => "Expected an NFT token ID (number)"
  | .DECRYPTION_EXPERT => "Expected decrypted content proof"

/-- An entry of `WORKSHOP_CHALLENGES` (the fields `validateChallengeFlag`
reads). -/
structure Challenge where
  id : ChallengeType
  number : Nat
  difficulty : Nat
  deriving DecidableEq, Repr

/-- `WORKSHOP_CHALLENGES` with the declared difficulties
(BEGINNER = 1, INTERMEDIATE = 2, ADVANCED = 3, EXPERT = 4). -/
def WORKSHOP_CHALLENGES : List Challenge :=
  [⟨.TREASURY_MASTER, 1, 1⟩,
   ⟨.STORAGE_SENTINEL, 2, 2⟩,
   ⟨.DATA_GUARDIAN, 3, 2⟩,
   ⟨.NFT_ARCHITECT, 4, 3⟩,
   ⟨.DECRYPTION_EXPERT, 5, 4⟩]

/-- `FlagValidationResult`: `valid` carries the challenge id and points,
`invalid` the error and hint strings. -/
inductive FlagValidationResult where
  | valid (challengeId : ChallengeType) (points : Nat)
  | invalid (error : String) (hint : String)
  deriving DecidableEq, Repr

/-- Whether a validation result is the accepting variant. -/
def FlagValidationResult.isAccepted : FlagValidationResult → Bool
  | .valid _ _ => true
  | .invalid _ _ => false

/-- `validateChallengeFlag(challengeId, flag)`: rejects empty (`!flag`) and
whitespace-only flags, trims the flag, runs the per-challenge validator, and
on success computes points from the challenge's difficulty (`difficulty * 100`,
with a fallback of 100 were the challenge missing from
`WORKSHOP_CHALLENGES`). -/
def validateChallengeFlag (challengeId : ChallengeType) (flag : List Char) :
    FlagValidationResult :=
  if flag.isEmpty then
    .invalid "Flag cannot be empty" "Enter the flag you received after completing the challenge"
  else
    let trimmedFlag := jsTrim flag
    if trimmedFlag.length = 0 then
      .invalid "Flag cannot be empty" "Enter the flag you received after completing the challenge"
    else if challengeFlags challengeId trimmedFlag then
      let points :=
        match WORKSHOP_CHALLENGES.find? (fun c => c.id == challengeId) with
        | some c => c.difficulty * 100
        | none => 100
      .valid challengeId points
    else
      .invalid "Invalid flag format" (hintFor challengeId)

namespace UploadSim

/-- The `UploadProgressState` discriminated union of `useFileUploadEnhanced`
(progress numbers kept for the states the workflow sets). -/
inductive ProgressStatus where
  | idle
  | converting (progress : Nat)
  | initializing (progress : Nat)
  | uploading (progress : Nat)
  | processing (progress : Nat)
  | completed
  | failed (error : String)
  deriving DecidableEq, Repr

/-- State of one run of the enhanced-upload mutation interleaved with UI
events.  `pc` is the position in the mutation body; `ref` is
`cancelTokenRef.current` (`none` = `null`, `some b` = a controller whose
`signal.aborted` is `b`); `ctrlAborted` tracks whether the controller created
by this run has been aborted (even after the ref was nulled); `thrown` records
that the body threw and was caught. -/
structure SimState where
  pc : Nat
  ref : Option Bool
  ctrlAborted : Bool
  progress : ProgressStatus
  thrown : Bool
  deriving DecidableEq, Repr

/-- The initial state before the mutation starts. -/
def initSim : SimState :=
  { pc := 0, ref := none, ctrlAborted := false, progress := .idle, thrown := false }

/-- The truthiness of `cancelTokenRef.current?.signal.aborted`: `undefined`
(when the ref is `null`) is falsy. -/
def abortSignalSeen (s : SimState) : Bool :=
  match s.ref with
  | some b => b
  | none => false

/-- One suspension-to-suspension step of the mutation body:
`pc = 0` converts the file; `pc = 1` creates the `AbortController` and enters
`initializing`; `pc = 2` enters `uploading`; `pc = 3..7` are the five loop
iterations (progress 30..70), each first checking
`cancelTokenRef.current?.signal.aborted` and throwing `"Upload cancelled"`
when it is truthy; `pc = 8` enters `processing`; `pc = 9` completes and runs
the `finally` that nulls the ref. -/
def stepSim (s : SimState) : SimState :=
  if s.pc = 0 then { s with pc := 1, progress := .converting 10 }
  else if s.pc = 1 then
    { s with pc := 2, ref := some false, ctrlAborted := false,
             progress := .initializing 20 }
  else if s.pc = 2 then { s with pc := 3, progress := .uploading 30 }
  else if s.pc ≤ 7 then
    if abortSignalSeen s then
      { s with pc := 10, ref := none, thrown := true,
               progress := .failed "Upload cancelled" }
    else { s with pc := s.pc + 1, progress := .uploading ((s.pc - 3) * 10 + 30) }
  else if s.pc = 8 then { s with pc := 9, progress := .processing 80 }
  else if s.pc = 9 then { s with pc := 10, ref := none, progress := .completed }
  else s

/-- `cancelUpload()`: aborts the controller if the ref holds one, nulls the
ref, and sets the progress state to `failed` with
`"Upload cancelled by user"`. -/
def cancelSim (s : SimState) : SimState :=
  match s.ref with
  | some _ =>
    { s with ref := none, ctrlAborted := true,
             progress := .failed "Upload cancelled by user" }
  | none => { s with ref := none, progress := .failed "Upload cancelled by user" }

/-- An event of the interleaving: the mutation advances one step, or the user
clicks cancel. -/
inductive Ev where
  | step
  | cancel
  deriving DecidableEq, Repr

/-- Run a list of events from a state. -/
def runEvents (evs : List Ev) (s : SimState) : SimState :=
  evs.foldl (fun s e => match e with | .step => stepSim s | .cancel => cancelSim s) s

end UploadSim

/-- The value of a big-endian list of decimal digits
(`listVal [1, 2, 3] = 123`). -/
def listVal (l : List Nat) : Nat :=
  l.foldl (fun acc d => 10 * acc + d) 0

/-- The `decimals`-character decimal representation of `n` with leading
zeros: `fractionalPart.toString().padStart(decimals, "0")` as a big-endian
digit list (for `n < 10 ^ decimals`). -/
def bigEndianDigits : Nat → Nat → List Nat
  | _, 0 => []
  | n, k + 1 => bigEndianDigits (n / 10) k ++ [n % 10]

/-- `fractionalStr.replace(/0+$/, "")`: strip trailing zero digits. -/
def trimTrailingZeros (l : List Nat) : List Nat :=
  (l.reverse.dropWhile (fun d => d == 0)).reverse

/-- `formatCurrency(amount, decimals)` of the workshop context provider, for
non-negative amounts.  The decimal string it returns is represented as the
whole part (a `Nat`) paired with the digit list printed after the decimal
point (`[]` = no decimal point printed).  When the fractional part is zero,
or trimming leaves nothing, only the whole part is printed. -/
def formatCurrency (amount : Nat) (decimals : Nat) : Nat × List Nat :=
  let divisor := 10 ^ decimals
  let wholePart := amount / divisor
  let fractionalPart := amount % divisor
  if fractionalPart = 0 then (wholePart, [])
  else
    let fractionalStr := bigEndianDigits fractionalPart decimals
    let trimmedFractional := trimTrailingZeros fractionalStr
    if trimmedFractional.isEmpty then (wholePart, []) else (wholePart, trimmedFractional)

/-- The parsing described by the claim: whole part times `10 ^ decimals` plus
the fractional digits right-padded with zeros to `decimals` places. -/
def parseDecimal (whole : Nat) (frac : List Nat) (decimals : Nat) : Nat :=
  whole * 10 ^ decimals + listVal frac * 10 ^ (decimals - frac.length)

/-! ## Theorems -/

/-- C1: selecting a file strictly larger than `100 * 1024 * 1024` bytes makes
`handleFileSelect` (in both `FileUpload` and `EncryptedNFTMinter`) show the
rejection alert and return with the selected-file state unchanged; a file of
size at most 100 MB becomes the selected file. -/
theorem fileSelect_size_limit (f : FileMeta) (rest : List FileMeta)
    (sel : Option FileMeta) (st : EncryptedNFTMinter.SelectState) :
    (f.size > 100 * 1024 * 1024 →
        FileUpload.handleFileSelect (f :: rest) sel = (sel, true)
      ∧ EncryptedNFTMinter.handleFileSelect (f :: rest) st = (st, true))
  ∧ (f.size ≤ 100 * 1024 * 1024 →
        FileUpload.handleFileSelect (f :: rest) sel = (some f, false)
      ∧ EncryptedNFTMinter.handleFileSelect (f :: rest) st
          = ({ selectedFile := some f, pieceCid := none, mintedTokenId := none }, false)) := by
  constructor
  · intro h
    constructor <;>
      simp only [FileUpload.handleFileSelect, EncryptedNFTMinter.handleFileSelect,
        MAX_UPLOAD_SIZE] <;>
      rw [if_pos (by omega)]
  · intro h
    constructor <;>
      simp only [FileUpload.handleFileSelect, EncryptedNFTMinter.handleFileSelect,
        MAX_UPLOAD_SIZE] <;>
      rw [if_neg (by omega)]

/-- Witness for C1 at a 100 MB + 1 byte file and a 1 KB file. -/
theorem fileSelect_size_limit_witness :
    FileUpload.handleFileSelect [⟨"big.bin", 104857601⟩] none = (none, true)
  ∧ FileUpload.handleFileSelect [⟨"ok.bin", 1024⟩] none = (some ⟨"ok.bin", 1024⟩, false)
  ∧ EncryptedNFTMinter.handleFileSelect [⟨"big.bin", 104857601⟩] ⟨none, none, none⟩
      = (⟨none, none, none⟩, true) := by
  have h1 := fileSelect_size_limit ⟨"big.bin", 104857601⟩ [] none ⟨none, none, none⟩
  have h2 := fileSelect_size_limit ⟨"ok.bin", 1024⟩ [] none ⟨none, none, none⟩
  exact ⟨(h1.1 (by norm_num)).1, (h2.2 (by norm_num)).1, (h1.1 (by norm_num)).2⟩

/-- C4 counterexample: with the user having selected the public access type
(`mintType = "public"`), `handleEncryptUploadAndMint` still issues
`mintPrivate(pieceCid, accessAddresses)` — the mint call does not depend on
the selected access type, so `mintPrivate` is not invoked "only when the user
selected private access". -/
theorem mintPrivate_called_for_public :
    EncryptedNFTMinter.mintCall "public" "bafypiececid" ["0xabc"]
      = ContractCall.mintPrivate "bafypiececid" ["0xabc"]
  ∧ "public" ≠ "private" := by
  exact ⟨rfl, by decide⟩

/-- C4 amended: the application invokes `mint` with only a CID string for
public NFTs, and invokes `mintPrivate` with `(pieceCid, accessAddresses)` for
every encrypted-NFT mint, regardless of the selected access type. -/
theorem mint_call_shapes (uploadResult mintType pieceCid : String)
    (accessAddresses : List String) :
    NFTMinter.mintCall uploadResult = ContractCall.mint uploadResult
  ∧ EncryptedNFTMinter.mintCall mintType pieceCid accessAddresses
      = ContractCall.mintPrivate pieceCid accessAddresses :=
  ⟨rfl, rfl⟩

theorem mintMany_cons (c : String × String) (cs : List (String × String))
    (st : NFTContract.State) :
    NFTContract.mintMany (c :: cs) st = NFTContract.mintMany cs (NFTContract.mint c.1 c.2 st) :=
  rfl

theorem mintMany_tokenIdCounter (calls : List (String × String)) (st : NFTContract.State) :
    (NFTContract.mintMany calls st).tokenIdCounter = st.tokenIdCounter + calls.length := by
  induction calls generalizing st with
  | nil => simp [NFTContract.mintMany]
  | cons c cs ih =>
    rw [mintMany_cons, ih]
    simp [NFTContract.mint]
    omega

theorem mintMany_preserve (calls : List (String × String)) (st : NFTContract.State)
    (k : Nat) (hk : k ≤ st.tokenIdCounter) :
    (NFTContract.mintMany calls st).tokenURIs k = st.tokenURIs k
  ∧ (NFTContract.mintMany calls st).owners k = st.owners k := by
  induction calls generalizing st with
  | nil => simp [NFTContract.mintMany]
  | cons c cs ih =>
    rw [mintMany_cons]
    have hrec := ih (NFTContract.mint c.1 c.2 st) (by simp [NFTContract.mint]; omega)
    rw [hrec.1, hrec.2]
    constructor <;> (simp [NFTContract.mint]; intro h'; exfalso; omega)

theorem mintMany_assigned (calls : List (String × String)) (st : NFTContract.State)
    (i : Nat) (h : i < calls.length) :
    (NFTContract.mintMany calls st).tokenURIs (st.tokenIdCounter + i + 1)
        = (calls.get ⟨i, h⟩).2
  ∧ (NFTContract.mintMany calls st).owners (st.tokenIdCounter + i + 1)
        = some (calls.get ⟨i, h⟩).1 := by
  induction calls generalizing st i with
  | nil => simp at h
  | cons c cs ih =>
    cases i with
    | zero =>
      rw [mintMany_cons]
      have hp := mintMany_preserve cs (NFTContract.mint c.1 c.2 st)
        (st.tokenIdCounter + 1) (by simp [NFTContract.mint])
      rw [show st.tokenIdCounter + 0 + 1 = st.tokenIdCounter + 1 by omega]
      rw [hp.1, hp.2]
      constructor <;> simp [NFTContract.mint]
    | succ j =>
      rw [mintMany_cons]
      have hrec := ih (NFTContract.mint c.1 c.2 st) j (by simpa using h)
      have hidx : st.tokenIdCounter + (j + 1) + 1
          = (NFTContract.mint c.1 c.2 st).tokenIdCounter + j + 1 := by
        simp [NFTContract.mint]; omega
      rw [hidx]
      exact ⟨hrec.1, hrec.2⟩

/-- C3: after any sequence of `n` `mint` calls from the freshly constructed
`NFTContract`, `getTotalSupply()` is `n`; token id `i + 1` is owned by the
`i`-th caller and `tokenURI(i + 1)` is the `i`-th CID argument;
`getAllTokensDetails()` is exactly the list of stored CIDs for ids `1..n` in
order; and a further `mint` leaves `tokenURI(k)` unchanged for every
`k ≤ n`. -/
theorem nft_mint_token_records (calls : List (String × String)) :
    NFTContract.getTotalSupply (NFTContract.mintMany calls NFTContract.initialState)
        = calls.length
  ∧ (∀ i (h : i < calls.length),
      NFTContract.ownerOf (NFTContract.mintMany calls NFTContract.initialState) (i + 1)
          = some (calls.get ⟨i, h⟩).1
        ∧ NFTContract.tokenURI (NFTContract.mintMany calls NFTContract.initialState) (i + 1)
          = (calls.get ⟨i, h⟩).2)
  ∧ NFTContract.getAllTokensDetails (NFTContract.mintMany calls NFTContract.initialState)
        = calls.map Prod.snd
  ∧ (∀ sender cid k,
      k ≤ NFTContract.getTotalSupply (NFTContract.mintMany calls NFTContract.initialState) →
      NFTContract.tokenURI
          (NFTContract.mint sender cid (NFTContract.mintMany calls NFTContract.initialState)) k
        = NFTContract.tokenURI (NFTContract.mintMany calls NFTContract.initialState) k) := by
  have hcounter : (NFTContract.mintMany calls NFTContract.initialState).tokenIdCounter
      = calls.length := by
    rw [mintMany_tokenIdCounter]
    simp [NFTContract.initialState]
  refine ⟨?_, ?_, ?_, ?_⟩
  · simpa [NFTContract.getTotalSupply] using hcounter
  · intro i h
    have := mintMany_assigned calls NFTContract.initialState i h
    simp only [NFTContract.initialState] at this
    exact ⟨by simpa [NFTContract.ownerOf] using this.2,
           by simpa [NFTContract.tokenURI] using this.1⟩
  · apply List.ext_get
    · simp [NFTContract.getAllTokensDetails, NFTContract.getTotalSupply, hcounter]
    · intro n h1 h2
      have hn : n < calls.length := by
        simpa [NFTContract.getAllTokensDetails, NFTContract.getTotalSupply, hcounter] using h1
      have := (mintMany_assigned calls NFTContract.initialState n hn).1
      simp only [NFTContract.initialState] at this
      simp [NFTContract.getAllTokensDetails, NFTContract.getTotalSupply,
        NFTContract.tokenURI, hcounter]
      simpa using this
  · intro sender cid k hk
    rw [NFTContract.getTotalSupply, hcounter] at hk
    simp [NFTContract.mint, NFTContract.tokenURI]
    intro h'
    exfalso
    omega

/-- Witness for C3 at two concrete mints. -/
theorem nft_mint_token_records_witness :
    NFTContract.getTotalSupply
        (NFTContract.mintMany [("alice", "cidA"), ("bob", "cidB")] NFTContract.initialState) = 2
  ∧ NFTContract.ownerOf
        (NFTContract.mintMany [("alice", "cidA"), ("bob", "cidB")] NFTContract.initialState) 2
      = some "bob"
  ∧ NFTContract.tokenURI
        (NFTContract.mintMany [("alice", "cidA"), ("bob", "cidB")] NFTContract.initialState) 2
      = "cidB"
  ∧ NFTContract.getAllTokensDetails
        (NFTContract.mintMany [("alice", "cidA"), ("bob", "cidB")] NFTContract.initialState)
      = ["cidA", "cidB"] := by
  have h := nft_mint_token_records [("alice", "cidA"), ("bob", "cidB")]
  have h2 := h.2.1 1 (by norm_num)
  exact ⟨h.1, by simpa using h2.1, by simpa using h2.2, by simpa using h.2.2.1⟩

theorem listVal_append (l : List Nat) (d : Nat) :
    listVal (l ++ [d]) = 10 * listVal l + d := by
  simp [listVal, List.foldl_append]

theorem length_bigEndianDigits (n k : Nat) : (bigEndianDigits n k).length = k := by
  induction k generalizing n with
  | zero => simp [bigEndianDigits]
  | succ k ih => simp [bigEndianDigits, ih]

theorem listVal_bigEndianDigits (n k : Nat) :
    listVal (bigEndianDigits n k) = n % 10 ^ k := by
  induction k generalizing n with
  | zero => simp [bigEndianDigits, listVal, Nat.mod_one]
  | succ k ih =>
    rw [bigEndianDigits, listVal_append, ih]
    have hpow : (10 : Nat) ^ (k + 1) = 10 * 10 ^ k := by ring
    rw [hpow, Nat.mod_mul]
    omega

theorem listVal_dropTrailing (r : List Nat) :
    listVal r.reverse
      = listVal (r.dropWhile (fun d => d == 0)).reverse
        * 10 ^ (r.length - (r.dropWhile (fun d => d == 0)).length)
  ∧ (r.dropWhile (fun d => d == 0)).length ≤ r.length := by
  induction r with
  | nil => simp [listVal]
  | cons d r ih =>
    by_cases hd : d = 0
    · subst hd
      have hdw : (0 :: r).dropWhile (fun d => d == 0) = r.dropWhile (fun d => d == 0) := by
        simp [List.dropWhile]
      rw [hdw]
      have hval : listVal ((0 :: r).reverse) = 10 * listVal r.reverse := by
        rw [List.reverse_cons, listVal_append]
        omega
      constructor
      · rw [hval, ih.1]
        have hle := ih.2
        have hlen : (0 :: r : List Nat).length - (r.dropWhile (fun d => d == 0)).length
            = (r.length - (r.dropWhile (fun d => d == 0)).length) + 1 := by
          simp
          omega
        rw [hlen, pow_succ]
        ring
      · have := ih.2
        simp
        omega
    · have hbeq : (d == 0) = false := by simpa using hd
      have hdw : (d :: r).dropWhile (fun x => x == 0) = d :: r := by
        simp [List.dropWhile, hbeq]
      rw [hdw]
      simp

theorem trimTrailingZeros_spec (l : List Nat) :
    listVal l
      = listVal (trimTrailingZeros l) * 10 ^ (l.length - (trimTrailingZeros l).length)
  ∧ (trimTrailingZeros l).length ≤ l.length := by
  have h := listVal_dropTrailing l.reverse
  constructor
  · have := h.1
    simpa [trimTrailingZeros] using this
  · have := h.2
    simpa [trimTrailingZeros] using this

theorem trimTrailingZeros_getLast (l : List Nat) :
    (trimTrailingZeros l).getLast? ≠ some 0 := by
  unfold trimTrailingZeros
  rw [List.getLast?_reverse]
  intro h
  have hh := List.head?_dropWhile_not (fun d => d == 0) l.reverse
  rw [h] at hh
  simp at hh

/-- C10: `formatCurrency` round-trips for every non-negative amount at the
default 18 decimals — the whole part times `10 ^ 18` plus the printed
fractional digits right-padded with zeros to 18 places recovers the amount —
and the printed fractional digits never end in a zero. -/
theorem formatCurrency_round_trip (amount : Nat) :
    parseDecimal (formatCurrency amount 18).1 (formatCurrency amount 18).2 18 = amount
  ∧ (formatCurrency amount 18).2.getLast? ≠ some 0 := by
  by_cases h0 : amount % 10 ^ 18 = 0
  · have hfc : formatCurrency amount 18 = (amount / 10 ^ 18, []) := by
      simp only [formatCurrency]
      rw [if_pos h0]
    rw [hfc]
    refine ⟨?_, by simp⟩
    simp [parseDecimal, listVal]
    omega
  · have hlt : amount % 10 ^ 18 < 10 ^ 18 := Nat.mod_lt _ (by norm_num)
    have hdigits : listVal (bigEndianDigits (amount % 10 ^ 18) 18) = amount % 10 ^ 18 := by
      rw [listVal_bigEndianDigits]
      exact Nat.mod_eq_of_lt hlt
    have hlen := length_bigEndianDigits (amount % 10 ^ 18) 18
    have htrim := trimTrailingZeros_spec (bigEndianDigits (amount % 10 ^ 18) 18)
    by_cases hemp : (trimTrailingZeros (bigEndianDigits (amount % 10 ^ 18) 18)).isEmpty
    · exfalso
      have hnil : trimTrailingZeros (bigEndianDigits (amount % 10 ^ 18) 18) = [] := by
        simpa [List.isEmpty_iff] using hemp
      have := htrim.1
      rw [hnil, hdigits] at this
      simp [listVal] at this
      exact h0 this
    · have hfc : formatCurrency amount 18
          = (amount / 10 ^ 18, trimTrailingZeros (bigEndianDigits (amount % 10 ^ 18) 18)) := by
        simp only [formatCurrency]
        rw [if_neg h0, if_neg (by simpa using hemp)]
      set tf := trimTrailingZeros (bigEndianDigits (amount % 10 ^ 18) 18) with htf
      clear_value tf
      rw [hfc]
      constructor
      · show parseDecimal (amount / 10 ^ 18) tf 18 = amount
        simp only [parseDecimal]
        have hval : listVal tf * 10 ^ (18 - tf.length) = amount % 10 ^ 18 := by
          have h1 := htrim.1
          rw [hlen, hdigits] at h1
          exact h1.symm
        rw [hval]
        have := Nat.div_add_mod amount (10 ^ 18)
        omega
      · show tf.getLast? ≠ some 0
        rw [htf]
        exact trimTrailingZeros_getLast (bigEndianDigits (amount % 10 ^ 18) 18)

/-- Witness for C10 at a concrete amount (1.5 tokens in base units). -/
theorem formatCurrency_round_trip_witness :
    parseDecimal (formatCurrency 1500000000000000000 18).1
        (formatCurrency 1500000000000000000 18).2 18 = 1500000000000000000
  ∧ (formatCurrency 1500000000000000000 18).2.getLast? ≠ some 0 :=
  formatCurrency_round_trip 1500000000000000000

theorem isAccepted_iff (id : ChallengeType) (flag : List Char) :
    (validateChallengeFlag id flag).isAccepted = true
      ↔ (jsTrim flag ≠ [] ∧ challengeFlags id (jsTrim flag) = true) := by
  simp only [validateChallengeFlag]
  by_cases he : flag.isEmpty
  · have hnil : flag = [] := by simpa using he
    subst hnil
    simp [FlagValidationResult.isAccepted, jsTrim]
  · rw [if_neg (by simpa using he)]
    by_cases hlen : (jsTrim flag).length = 0
    · rw [if_pos hlen]
      have hnil : jsTrim flag = [] := List.length_eq_zero.mp hlen
      simp [FlagValidationResult.isAccepted, hnil]
    · rw [if_neg hlen]
      by_cases hf : challengeFlags id (jsTrim flag)
      · rw [if_pos hf]
        simp only [FlagValidationResult.isAccepted, hf, and_true, true_iff]
        intro hnil
        exact hlen (by rw [hnil]; rfl)
      · rw [if_neg hf]
        simp [FlagValidationResult.isAccepted, hf]

theorem jsTrim_of_all_space (flag : List Char) (h : flag.all isJsSpace = true) :
    jsTrim flag = [] := by
  have h1 : flag.dropWhile isJsSpace = [] :=
    List.dropWhile_eq_nil_iff.mpr (by simpa [List.all_eq_true] using h)
  simp [jsTrim, h1]

theorem validate_points (id : ChallengeType) (flag : List Char)
    (h : (validateChallengeFlag id flag).isAccepted = true) :
    ∃ c, WORKSHOP_CHALLENGES.find? (fun ch => ch.id == id) = some c
      ∧ validateChallengeFlag id flag = .valid id (c.difficulty * 100) := by
  simp only [validateChallengeFlag] at h ⊢
  split_ifs at h ⊢ with h1 h2 h3
  · simp [FlagValidationResult.isAccepted] at h
  · simp [FlagValidationResult.isAccepted] at h
  · cases id <;> exact ⟨_, by decide, rfl⟩
  · simp [FlagValidationResult.isAccepted] at h

/-- C9: flag validation is a pure function of the trimmed flag:
`TREASURY_MASTER` accepts iff the trimmed flag starts with `"0x"` and has
length 66; `STORAGE_SENTINEL` iff it starts with `"Qm"` and has length 46;
`DATA_GUARDIAN` iff it starts with `"encrypted_"` and is longer than 20;
`NFT_ARCHITECT` iff it is a nonempty string of digits; `DECRYPTION_EXPERT`
iff it contains `"decrypted_content"`; every whitespace-only (in particular
empty) flag is rejected; and every accepted flag yields the challenge's
difficulty times 100 points (1, 2, 2, 3, 4 × 100 respectively). -/
theorem validateChallengeFlag_spec (flag : List Char) :
    ((validateChallengeFlag .TREASURY_MASTER flag).isAccepted = true
        ↔ "0x".toList.isPrefixOf (jsTrim flag) = true ∧ (jsTrim flag).length = 66)
  ∧ ((validateChallengeFlag .STORAGE_SENTINEL flag).isAccepted = true
        ↔ "Qm".toList.isPrefixOf (jsTrim flag) = true ∧ (jsTrim flag).length = 46)
  ∧ ((validateChallengeFlag .DATA_GUARDIAN flag).isAccepted = true
        ↔ "encrypted_".toList.isPrefixOf (jsTrim flag) = true ∧ 20 < (jsTrim flag).length)
  ∧ ((validateChallengeFlag .NFT_ARCHITECT flag).isAccepted = true
        ↔ jsTrim flag ≠ [] ∧ (jsTrim flag).all Char.isDigit = true)
  ∧ ((validateChallengeFlag .DECRYPTION_EXPERT flag).isAccepted = true
        ↔ hasSubstring "decrypted_content".toList (jsTrim flag) = true)
  ∧ (flag.all isJsSpace = true →
      ∀ id, (validateChallengeFlag id flag).isAccepted = false)
  ∧ (∀ id, (validateChallengeFlag id flag).isAccepted = true →
      validateChallengeFlag id flag
        = .valid id ((match id with
            | .TREASURY_MASTER => 1
            | .STORAGE_SENTINEL => 2
            | .DATA_GUARDIAN => 2
            | .NFT_ARCHITECT => 3
            | .DECRYPTION_EXPERT => 4) * 100)) := by
  refine ⟨?_, ?_, ?_, ?_, ?_, ?_, ?_⟩
  · rw [isAccepted_iff]
    constructor
    · rintro ⟨-, hf⟩
      simpa [challengeFlags] using hf
    · rintro ⟨h1, h2⟩
      refine ⟨fun hnil => by rw [hnil] at h2; simp at h2, ?_⟩
      simp only [challengeFlags, Bool.and_eq_true]
      exact ⟨h1, by simp [h2]⟩
  · rw [isAccepted_iff]
    constructor
    · rintro ⟨-, hf⟩
      simpa [challengeFlags] using hf
    · rintro ⟨h1, h2⟩
      refine ⟨fun hnil => by rw [hnil] at h2; simp at h2, ?_⟩
      simp only [challengeFlags, Bool.and_eq_true]
      exact ⟨h1, by simp [h2]⟩
  · rw [isAccepted_iff]
    constructor
    · rintro ⟨-, hf⟩
      simpa [challengeFlags] using hf
    · rintro ⟨h1, h2⟩
      refine ⟨fun hnil => by rw [hnil] at h2; simp at h2, ?_⟩
      simp only [challengeFlags, Bool.and_eq_true]
      exact ⟨h1, by simp [h2]⟩
  · rw [isAccepted_iff]
    constructor
    · rintro ⟨hne, hf⟩
      simp only [challengeFlags, Bool.and_eq_true] at hf
      exact ⟨hne, hf.2⟩
    · rintro ⟨h1, h2⟩
      refine ⟨h1, ?_⟩
      simp only [challengeFlags, Bool.and_eq_true]
      exact ⟨by simpa [List.isEmpty_iff] using h1, h2⟩
  · rw [isAccepted_iff]
    constructor
    · rintro ⟨-, hf⟩
      simpa [challengeFlags] using hf
    · intro h1
      refine ⟨?_, by simpa [challengeFlags] using h1⟩
      intro hnil
      rw [hnil] at h1
      simp [hasSubstring] at h1
  · intro hsp id
    have h0 := jsTrim_of_all_space flag hsp
    have hiff := isAccepted_iff id flag
    rw [h0] at hiff
    simp at hiff
    exact hiff
  · intro id h
    obtain ⟨c, hfind, hval⟩ := validate_points id flag h
    rw [hval]
    cases id <;> (simp only [WORKSHOP_CHALLENGES] at hfind; simp at hfind; rw [← hfind])

/-- Witness for C9: a well-formed `STORAGE_SENTINEL` CID flag is accepted,
an `NFT_ARCHITECT` digit flag is accepted with 300 points, and a
whitespace-only flag is rejected. -/
theorem validateChallengeFlag_spec_witness :
    (validateChallengeFlag .STORAGE_SENTINEL
        ("Qm".toList ++ List.replicate 44 'a')).isAccepted = true
  ∧ validateChallengeFlag .NFT_ARCHITECT "12345".toList
      = .valid .NFT_ARCHITECT (3 * 100)
  ∧ (validateChallengeFlag .TREASURY_MASTER "   ".toList).isAccepted = false := by
  have h1 := validateChallengeFlag_spec ("Qm".toList ++ List.replicate 44 'a')
  have h2 := validateChallengeFlag_spec "12345".toList
  have h3 := validateChallengeFlag_spec "   ".toList
  refine ⟨h1.2.1.mpr ⟨by decide, by decide⟩, ?_, h3.2.2.2.2.2.1 (by decide) _⟩
  have hacc : (validateChallengeFlag .NFT_ARCHITECT "12345".toList).isAccepted = true :=
    h2.2.2.2.1.mpr ⟨by decide, by decide⟩
  exact h2.2.2.2.2.2.2 _ hacc

theorem txStorageKey_ne_progressKey (id : ChallengeType) :
    txStorageKey id ≠ PROGRESS_STORAGE_KEY := by
  cases id <;> decide

theorem mem_updatedProgressOf (now : Nat) (id : ChallengeType) (p : WorkshopProgress) :
    id ∈ (updatedProgressOf now id p).completedChallenges := by
  simp only [updatedProgressOf]
  split_ifs with h
  · exact h
  · simp

/-- C5: `completeChallenge(id, tx?)` persists, under the key
`"fil-workshop-progress"`, a progress object whose `completedChallenges`
contains `id` and whose `lastUpdated` is the completion time; when a
transaction hash is supplied it is persisted under `"challenge-<id>-tx"`; and
when either storage write throws, the in-memory progress state is left
unchanged. -/
theorem completeChallenge_persists (now : Nat) (id : ChallengeType) (tx : Option String)
    (okP okT : Bool) (st : HookState) (store : Store) :
    (okP = true → (tx = none ∨ okT = true) →
        ((completeChallenge now id tx okP okT st store).2 PROGRESS_STORAGE_KEY
            = some (.progressVal (updatedProgressOf now id st.progress))
          ∧ id ∈ (updatedProgressOf now id st.progress).completedChallenges
          ∧ (updatedProgressOf now id st.progress).lastUpdated = now
          ∧ ((completeChallenge now id tx okP okT st store).1).progress
              = updatedProgressOf now id st.progress
          ∧ ∀ h, tx = some h →
              (completeChallenge now id tx okP okT st store).2 (txStorageKey id)
                = some (.txVal h)))
  ∧ ((okP = false ∨ (∃ h, tx = some h ∧ okT = false)) →
        ((completeChallenge now id tx okP okT st store).1).progress = st.progress) := by
  constructor
  · intro hP htx
    subst hP
    cases tx with
    | none =>
      refine ⟨?_, mem_updatedProgressOf now id st.progress, rfl, ?_, ?_⟩
      · simp [completeChallenge, setStore]
      · simp [completeChallenge, challengeVerificationReducer]
      · intro h hcontra
        exact absurd hcontra (by simp)
    | some h0 =>
      have hT : okT = true := by
        rcases htx with h | h
        · exact absurd h (by simp)
        · exact h
      subst hT
      refine ⟨?_, mem_updatedProgressOf now id st.progress, rfl, ?_, ?_⟩
      · have hne : ¬(PROGRESS_STORAGE_KEY = txStorageKey id) :=
          fun hh => txStorageKey_ne_progressKey id hh.symm
        simp [completeChallenge, setStore, hne]
      · simp [completeChallenge, challengeVerificationReducer]
      · intro h hh
        cases hh
        simp [completeChallenge, setStore]
  · intro herr
    rcases herr with h | ⟨h0, hsome, hT⟩
    · subst h
      simp [completeChallenge, challengeVerificationReducer]
    · subst hsome
      subst hT
      cases okP <;> simp [completeChallenge, challengeVerificationReducer]

/-- Witness for C5: completing `STORAGE_SENTINEL` with a transaction hash
stores the progress record and the hash; a failing progress write leaves the
in-memory progress unchanged. -/
theorem completeChallenge_persists_witness :
    (completeChallenge 42 .STORAGE_SENTINEL (some "0xdead") true true
        (initialHookState 0) emptyStore).2 PROGRESS_STORAGE_KEY
      = some (.progressVal (updatedProgressOf 42 .STORAGE_SENTINEL
          (initialHookState 0).progress))
  ∧ (completeChallenge 42 .STORAGE_SENTINEL (some "0xdead") true true
        (initialHookState 0) emptyStore).2 (txStorageKey .STORAGE_SENTINEL)
      = some (.txVal "0xdead")
  ∧ ((completeChallenge 7 .STORAGE_SENTINEL none false true
        (initialHookState 0) emptyStore).1).progress = (initialHookState 0).progress := by
  have h := completeChallenge_persists 42 .STORAGE_SENTINEL (some "0xdead") true true
    (initialHookState 0) emptyStore
  have h2 := completeChallenge_persists 7 .STORAGE_SENTINEL none false true
    (initialHookState 0) emptyStore
  have hs := h.1 rfl (Or.inr rfl)
  exact ⟨hs.1, hs.2.2.2.2 "0xdead" rfl, h2.2 (Or.inl rfl)⟩

theorem completeChallenge_progress_cases (now : Nat) (id : ChallengeType)
    (tx : Option String) (okP okT : Bool) (st : HookState) (store : Store) :
    ((completeChallenge now id tx okP okT st store).1).progress = st.progress
  ∨ ((completeChallenge now id tx okP okT st store).1).progress
      = updatedProgressOf now id st.progress := by
  cases okP <;> cases tx <;> cases okT <;>
    simp [completeChallenge, challengeVerificationReducer]

theorem applyOp_nodup (s : HookState × Store) (op : HookOp)
    (h : s.1.progress.completedChallenges.Nodup) :
    ((applyOp s op).1).progress.completedChallenges.Nodup := by
  cases op with
  | reset now => simp [applyOp, resetProgress, challengeVerificationReducer]
  | complete now id tx okP okT =>
    rcases completeChallenge_progress_cases now id tx okP okT s.1 s.2 with hc | hc <;>
      simp only [applyOp] <;> rw [hc]
    · exact h
    · simp only [updatedProgressOf]
      split_ifs with hmem
      · exact h
      · simpa [List.nodup_append] using ⟨h, hmem⟩

theorem runOps_nodup (ops : List HookOp) (s : HookState × Store)
    (h : s.1.progress.completedChallenges.Nodup) :
    ((runOps ops s).1).progress.completedChallenges.Nodup := by
  induction ops generalizing s with
  | nil => exact h
  | cons op ops ih =>
    rw [runOps, List.foldl_cons]
    exact ih (applyOp s op) (applyOp_nodup s op h)

theorem card_ChallengeType : Fintype.card ChallengeType = 5 := rfl

/-- C8: `completeChallenge` is idempotent on an already-completed id, and
after any sequence of `completeChallenge` / `resetProgress` operations from
the initial state the `completedChallenges` list has pairwise-distinct
entries and length at most 5. -/
theorem completedChallenges_nodup (now : Nat) (id : ChallengeType) (tx : Option String)
    (okP okT : Bool) (st : HookState) (store : Store)
    (ops : List HookOp) (sessionStart : Nat) :
    (id ∈ st.progress.completedChallenges →
        ((completeChallenge now id tx okP okT st store).1).progress.completedChallenges
          = st.progress.completedChallenges)
  ∧ ((runOps ops (initialHookState sessionStart, emptyStore)).1).progress.completedChallenges.Nodup
  ∧ ((runOps ops (initialHookState sessionStart,
        emptyStore)).1).progress.completedChallenges.length ≤ 5 := by
  have hnodup : ((runOps ops (initialHookState sessionStart,
      emptyStore)).1).progress.completedChallenges.Nodup :=
    runOps_nodup ops _ (by simp [initialHookState])
  refine ⟨?_, hnodup, ?_⟩
  · intro hmem
    rcases completeChallenge_progress_cases now id tx okP okT st store with hc | hc <;> rw [hc]
    simp [updatedProgressOf, hmem]
  · calc ((runOps ops (initialHookState sessionStart,
            emptyStore)).1).progress.completedChallenges.length
        ≤ Fintype.card ChallengeType := hnodup.length_le_card
    _ = 5 := card_ChallengeType

/-- Witness for C8: re-completing an already-completed challenge leaves the
list unchanged, and a double completion still yields a duplicate-free list. -/
theorem completedChallenges_nodup_witness :
    ((completeChallenge 5 .TREASURY_MASTER none true true
        ⟨⟨[.TREASURY_MASTER], 0, 1, 0, 0⟩, false, none⟩
        emptyStore).1).progress.completedChallenges = [.TREASURY_MASTER]
  ∧ ((runOps
        [.complete 1 .TREASURY_MASTER none true true,
         .complete 2 .TREASURY_MASTER none true true]
        (initialHookState 0, emptyStore)).1).progress.completedChallenges.Nodup := by
  have h := completedChallenges_nodup 5 .TREASURY_MASTER none true true
    ⟨⟨[.TREASURY_MASTER], 0, 1, 0, 0⟩, false, none⟩ emptyStore
    [.complete 1 .TREASURY_MASTER none true true,
     .complete 2 .TREASURY_MASTER none true true] 0
  exact ⟨h.1 (by simp), h.2.1⟩

theorem find_enriched {α δ : Type} (getDataSet : Nat → Option δ) (ps : List ProviderInfo)
    (urlMap : Nat → Option String) (datasets : List (EnhancedDataSetInfo α))
    (hnd : (datasets.map (fun d => d.pdpVerifierDataSetId)).Nodup)
    (d : EnhancedDataSetInfo α) (hd : d ∈ datasets) :
    (datasets.map (useDatasets.enrichOne getDataSet ps urlMap)).find?
        (fun r => r.base.pdpVerifierDataSetId == d.pdpVerifierDataSetId)
      = some (useDatasets.enrichOne getDataSet ps urlMap d) := by
  induction datasets with
  | nil => simp at hd
  | cons x xs ih =>
    rw [List.map_cons] at hnd ⊢
    have hnd' := List.nodup_cons.mp hnd
    rcases List.mem_cons.mp hd with hd | hd
    · subst hd
      rw [List.find?_cons_of_pos]
      simp [useDatasets.enrichOne]
    · have hne : x.pdpVerifierDataSetId ≠ d.pdpVerifierDataSetId := by
        intro hh
        exact hnd'.1 (hh ▸ List.mem_map_of_mem (fun d => d.pdpVerifierDataSetId) hd)
      rw [List.find?_cons_of_neg]
      · exact ih hnd'.2 hd
      · simp [useDatasets.enrichOne, hne]

/-- C6: for every fetched dataset list with pairwise-distinct
`pdpVerifierDataSetId`, the `useDatasets` result is exactly one entry per
input dataset, in the original order, each entry being the spread of the
input dataset (`base` field retained unchanged) with only `provider`,
`serviceURL` and `data` added. -/
theorem useDatasets_enrichment {α δ : Type} (providerIds : List Nat)
    (datasets : List (EnhancedDataSetInfo α))
    (getProviderInfo : Nat → Option ProviderInfo) (getDataSet : Nat → Option δ)
    (hnd : (datasets.map (fun d => d.pdpVerifierDataSetId)).Nodup) :
    useDatasets.queryFn (Except.ok providerIds) (Except.ok datasets)
        getProviderInfo getDataSet
      = Except.ok (datasets.map (fun d =>
          some (useDatasets.enrichOne getDataSet
            (useDatasets.filteredProviders getProviderInfo
              (useDatasets.providerIdToAddressMap datasets) providerIds)
            (useDatasets.providerIdToServiceUrlMap
              (useDatasets.filteredProviders getProviderInfo
                (useDatasets.providerIdToAddressMap datasets) providerIds))
            d))) := by
  simp only [useDatasets.queryFn, useDatasets.datasetsWithDetails]
  congr 1
  apply List.map_congr_left
  intro d hd
  exact find_enriched _ _ _ datasets hnd d hd

/-- Witness for C6: one provider and one dataset, all fetches succeeding. -/
theorem useDatasets_enrichment_witness :
    useDatasets.queryFn (α := Unit) (δ := String) (Except.ok [7])
        (Except.ok [⟨42, 7, "0xpayee", ()⟩])
        (fun _ => some ⟨7, some "https://pdp.example"⟩)
        (fun _ => some "pieces")
      = Except.ok [some ⟨⟨42, 7, "0xpayee", ()⟩, some ⟨7, some "https://pdp.example"⟩,
          some "https://pdp.example", some "pieces"⟩] := by
  have h := useDatasets_enrichment (δ := String) [7] [⟨42, 7, "0xpayee", ()⟩]
    (fun _ => some ⟨7, some "https://pdp.example"⟩) (fun _ => some "pieces")
    (by simp)
  rw [h]
  rfl

/-- C2 counterexample: with one approved provider whose info fetch throws and
one dataset whose PDP detail fetch throws, the `useDatasets` query function
still succeeds — it skips the failed provider and returns the dataset without
its detail data (`provider`, `serviceURL` and `data` all absent) — instead of
surfacing the error. -/
theorem useDatasets_swallows_fetch_errors :
    useDatasets.queryFn (α := Unit) (δ := String) (Except.ok [7])
        (Except.ok [⟨42, 7, "0xpayee", ()⟩])
        (fun _ => none)
        (fun _ => none)
      = Except.ok [some ⟨⟨42, 7, "0xpayee", ()⟩, none, none, none⟩] := by
  rfl

/-- C2 amended: only failures of the two top-level fetches (approved provider
ids, client datasets) reject the whole query; a per-provider info-fetch
failure merely removes that provider from `filteredProviders` (membership
there requires a successful fetch), a per-dataset detail-fetch failure yields
the dataset with `data` absent while keeping all base fields, and the query
with both top-level fetches succeeding always returns `ok`. -/
theorem useDatasets_error_handling {α δ : Type} (e : String) (pids : List Nat)
    (datasets : List (EnhancedDataSetInfo α))
    (dsr : Except String (List (EnhancedDataSetInfo α)))
    (gP : Nat → Option ProviderInfo) (gD : Nat → Option δ) :
    useDatasets.queryFn (δ := δ) (Except.error e) dsr gP gD = Except.error e
  ∧ useDatasets.queryFn (α := α) (δ := δ) (Except.ok pids) (Except.error e) gP gD
      = Except.error e
  ∧ (∃ l, useDatasets.queryFn (Except.ok pids) (Except.ok datasets) gP gD = Except.ok l)
  ∧ (∀ (d : EnhancedDataSetInfo α) (ps : List ProviderInfo)
       (urlMap : Nat → Option String),
        (useDatasets.enrichOne gD ps urlMap d).data = gD d.pdpVerifierDataSetId
      ∧ (useDatasets.enrichOne gD ps urlMap d).base = d)
  ∧ (∀ (addrMap : Nat → Option String) (p : ProviderInfo),
        p ∈ useDatasets.filteredProviders gP addrMap pids
          ↔ ∃ pid, pid ∈ pids ∧ (addrMap pid).isSome = true ∧ gP pid = some p) := by
  refine ⟨rfl, rfl, ⟨_, rfl⟩, fun d ps urlMap => ⟨rfl, rfl⟩, ?_⟩
  intro addrMap p
  simp only [useDatasets.filteredProviders, List.reduceOption_mem_iff, List.mem_map]
  constructor
  · rintro ⟨pid, hpid, hf⟩
    by_cases hs : (addrMap pid).isSome
    · rw [if_pos hs] at hf
      exact ⟨pid, hpid, hs, hf⟩
    · rw [if_neg hs] at hf
      exact absurd hf (by simp)
  · rintro ⟨pid, hpid, hs, hf⟩
    exact ⟨pid, hpid, by rw [if_pos hs]; exact hf⟩

/-- Witness for C2's amended claim: a failing top-level fetch propagates, and
a provider whose info fetch fails is not in `filteredProviders`. -/
theorem useDatasets_error_handling_witness :
    useDatasets.queryFn (α := Unit) (δ := String) (Except.error "boom")
        (Except.ok []) (fun _ => none) (fun _ => none) = Except.error "boom"
  ∧ ¬(⟨7, none⟩ : ProviderInfo) ∈ useDatasets.filteredProviders (fun _ => none)
      (fun _ => some "0xpayee") [7] := by
  have h := useDatasets_error_handling (α := Unit) (δ := String) "boom" [7] []
    (Except.ok []) (fun _ => none) (fun _ => none)
  refine ⟨h.1, fun hmem => ?_⟩
  obtain ⟨pid, -, -, hf⟩ := (h.2.2.2.2 (fun _ => some "0xpayee") ⟨7, none⟩).mp hmem
  exact absurd hf (by simp)

/-- C7: the upload workflow of `useFileUploadEnhanced` interleaved with
`cancelUpload`.  The claim's first two parts hold: `cancelUpload` aborts the
`AbortController` and sets the progress state to `failed` with
`"Upload cancelled by user"`.  Its finality part fails: because `cancelUpload`
also nulls `cancelTokenRef.current`, every later loop check reads
`cancelTokenRef.current?.signal.aborted` as `undefined` (falsy), never
throws, and the workflow still reaches `completed` — evaluated here on the
trace that cancels right after the upload loop starts. -/
theorem cancelUpload_not_final :
    (UploadSim.runEvents [.step, .step, .step] UploadSim.initSim).progress
        = .uploading 30
  ∧ (UploadSim.runEvents [.step, .step, .step] UploadSim.initSim).ref = some false
  ∧ (UploadSim.cancelSim
        (UploadSim.runEvents [.step, .step, .step] UploadSim.initSim)).ctrlAborted = true
  ∧ (UploadSim.cancelSim
        (UploadSim.runEvents [.step, .step, .step] UploadSim.initSim)).progress
        = .failed "Upload cancelled by user"
  ∧ (UploadSim.runEvents
        ([.step, .step, .step, .cancel] ++ List.replicate 7 .step)
        UploadSim.initSim).progress = .completed
  ∧ (UploadSim.runEvents
        ([.step, .step, .step, .cancel] ++ List.replicate 7 .step)
        UploadSim.initSim).thrown = false :=
  ⟨rfl, rfl, rfl, rfl, rfl, rfl⟩

end FilWorkshop
